import Mathlib

/-!
Shallow embedding of `src/train_en.py` from sangHa0411/WordEmbedding.

The file models the training control loop of the function `train` (epoch loop,
validation averaging, checkpoint decision, early stopping, learning-rate decay,
embedding export), the per-batch training phase with PyTorch gradient
accumulation semantics, and the top-level order of phases of the script.

Two layers are used, both translated from the source:

* a control layer (`runEpoch`, `runFrom`, `train`) in which the external tensor
  computation of one training phase and of the validation loss is abstracted as
  black-box functions `tE` and `vL` (the spec of the repository explicitly
  excludes the model arithmetic as an external collaborator); losses live in
  `EFloat`, an IEEE-style value with NaN and infinities so that the float
  comparison `val_loss < min_loss` of line 137 is modelled faithfully;
* a batch layer (`trainPhase`, `valPhase`, `trainB`) making the per-batch folds
  of lines 101-135 explicit, with exact rational loss values.
-/

namespace WordEmbedding

/-- IEEE-style loss value as produced by torch scalars in the source: a finite
rational, plus infinity, minus infinity, or NaN. -/
inductive EFloat where
  | finite : ℚ → EFloat
  | pinf : EFloat
  | ninf : EFloat
  | nan : EFloat
deriving DecidableEq

/-- The IEEE comparison used at line 137, `val_loss < min_loss`: NaN compares
false against everything, minus infinity is below every non-NaN value, plus
infinity is below nothing. -/
def EFloat.lt : EFloat → EFloat → Bool
  | .nan, _ => false
  | _, .nan => false
  | .ninf, .ninf => false
  | .ninf, _ => true
  | _, .ninf => false
  | .pinf, _ => false
  | .finite _, .pinf => true
  | .finite a, .finite b => decide (a < b)

theorem EFloat.lt_nan_left (x : EFloat) : EFloat.lt EFloat.nan x = false := by
  cases x <;> rfl

theorem EFloat.lt_pinf_left (x : EFloat) : EFloat.lt EFloat.pinf x = false := by
  cases x <;> rfl

theorem EFloat.lt_irrefl (x : EFloat) : EFloat.lt x x = false := by
  cases x <;> simp [EFloat.lt]

theorem EFloat.lt_trans {a b c : EFloat} (hab : EFloat.lt a b = true)
    (hbc : EFloat.lt b c = true) : EFloat.lt a c = true := by
  cases a <;> cases b <;> cases c <;> simp_all [EFloat.lt]
  exact hab.trans hbc

/-- The dictionary written by `torch.save` at lines 139-142: current epoch,
snapshot of the model state, and the epoch validation loss. -/
structure Ckpt (M : Type) where
  epoch : ℕ
  modelStateDict : M
  loss : EFloat
deriving DecidableEq

/-- State threaded through the epoch loop of `train` (lines 95-153).  `model`
is the in-memory model; `minLoss` is `min_loss`; `stopCount` is `stop_count`;
`ckpt` is the content of the checkpoint file `en_skipgram.pt` (none while no
save has happened); `savedLosses` is the history of loss values ever written to
that file; `lr` is the optimizer learning rate; `trainedEpochs` counts epochs
whose training phase ran; `schedSteps` counts executions of `scheduler.step()`;
`stoppedAt` records the epoch of an early stop, if any. -/
structure RunState (M : Type) where
  model : M
  minLoss : EFloat
  stopCount : ℕ
  ckpt : Option (Ckpt M)
  savedLosses : List EFloat
  lr : ℚ
  trainedEpochs : ℕ
  schedSteps : ℕ
  stoppedAt : Option ℕ

/-- Initial loop state of lines 95-96: `min_loss = np.inf`, `stop_count = 0`,
no checkpoint written yet, learning rate as configured. -/
def initState {M : Type} (lr0 : ℚ) (m0 : M) : RunState M :=
  { model := m0, minLoss := EFloat.pinf, stopCount := 0, ckpt := none,
    savedLosses := [], lr := lr0, trainedEpochs := 0, schedSteps := 0,
    stoppedAt := none }

/-- One iteration of the epoch loop (lines 97-153).  `tE e m` is the model
after the training phase of epoch `e` starting from model `m` (lines 99-115,
external tensor arithmetic); `vL m` is the averaged validation loss of model
`m` (lines 117-134).  Returns the new state and whether the `break` of
line 150 fired.  The checkpoint branch (lines 137-145) saves, resets
`stop_count` and updates `min_loss`; the else branch (lines 146-150) increments
`stop_count` and breaks once it reaches 5, before `scheduler.step()`
(line 152); otherwise the scheduler multiplies the learning rate by the
`ExponentialLR` factor 0.7 (line 89). -/
def runEpoch {M : Type} (tE : ℕ → M → M) (vL : M → EFloat) (epoch : ℕ)
    (s : RunState M) : RunState M × Bool :=
  let m := tE epoch s.model
  let v := vL m
  if EFloat.lt v s.minLoss then
    ({ s with
        model := m, minLoss := v, stopCount := 0,
        ckpt := some ⟨epoch, m, v⟩, savedLosses := s.savedLosses ++ [v],
        lr := s.lr * (7 / 10), trainedEpochs := s.trainedEpochs + 1,
        schedSteps := s.schedSteps + 1 }, false)
  else
    let sc := s.stopCount + 1
    if 5 ≤ sc then
      ({ s with
          model := m, stopCount := sc,
          trainedEpochs := s.trainedEpochs + 1, stoppedAt := some epoch }, true)
    else
      ({ s with
          model := m, stopCount := sc, lr := s.lr * (7 / 10),
          trainedEpochs := s.trainedEpochs + 1,
          schedSteps := s.schedSteps + 1 }, false)

/-- The `for epoch in range(args.epochs)` loop of line 97: run epochs starting
at index `e` with `n` epochs remaining, exiting early when `runEpoch` breaks. -/
def runFrom {M : Type} (tE : ℕ → M → M) (vL : M → EFloat) :
    ℕ → ℕ → RunState M → RunState M
  | _, 0, s => s
  | e, n + 1, s =>
    let p := runEpoch tE vL e s
    if p.2 then p.1 else runFrom tE vL (e + 1) n p.1

/-- The whole training loop of `train` (lines 95-153). -/
def train {M : Type} (tE : ℕ → M → M) (vL : M → EFloat) (epochs : ℕ)
    (lr0 : ℚ) (m0 : M) : RunState M :=
  runFrom tE vL 0 epochs (initState lr0 m0)

/-- Apply the training phases of epochs `e, e+1, ..., e+n-1` in order to a
model. -/
def applyEpochs {M : Type} (tE : ℕ → M → M) : ℕ → ℕ → M → M
  | _, 0, m => m
  | e, n + 1, m => applyEpochs tE (e + 1) n (tE e m)

/-- The export of lines 155-161: `model.get_weight()` and `model.get_bias()`
are read from the in-memory `model` object at loop exit (there is no
`torch.load` of the checkpoint file anywhere in the script), detached and
written with `np.save`. -/
def exportedEmbedding {M : Type} (tE : ℕ → M → M) (vL : M → EFloat)
    (epochs : ℕ) (lr0 : ℚ) (m0 : M) : M :=
  (train tE vL epochs lr0 m0).model

/-- Python exception raised by the source at the failing points modelled
here: `val_loss /= len(val_loader)` with a zero-length loader raises
ZeroDivisionError. -/
inductive PyErr where
  | zeroDivision
deriving DecidableEq

/-- One training batch iteration (lines 101-115).  PyTorch `loss.backward()`
accumulates the fresh gradient of the batch into the stored `.grad` buffers
(the script never calls `optimizer.zero_grad()`), and `optimizer.step()`
updates the parameters from the accumulated gradient.  `gradOf p b` is the
gradient of the batch loss at parameters `p`; `gAdd` is gradient-buffer
accumulation; `stepF p g` is the optimizer update.  State is (parameters,
accumulated gradient buffer). -/
def trainStep {P G B : Type} (gradOf : P → B → G) (gAdd : G → G → G)
    (stepF : P → G → P) (st : P × G) (b : B) : P × G :=
  let g := gAdd st.2 (gradOf st.1 b)
  (stepF st.1 g, g)

/-- The training phase of one epoch: fold `trainStep` over the train batches
(lines 101-115). -/
def trainPhase {P G B : Type} (gradOf : P → B → G) (gAdd : G → G → G)
    (stepF : P → G → P) (st : P × G) (bs : List B) : P × G :=
  bs.foldl (trainStep gradOf gAdd stepF) st

/-- The per-batch gradients produced along a training phase, each evaluated at
the parameters current when its `loss.backward()` ran. -/
def gradTrace {P G B : Type} (gradOf : P → B → G) (gAdd : G → G → G)
    (stepF : P → G → P) (st : P × G) : List B → List G
  | [] => []
  | b :: bs =>
    gradOf st.1 b ::
      gradTrace gradOf gAdd stepF (trainStep gradOf gAdd stepF st b) bs

/-- The validation accumulation loop of lines 122-132: under `torch.no_grad()`
the model `m` is only read, never written; per-batch loss and accuracy are
added into the running totals. -/
def valLoop {P B : Type} (lossOf accOf : P → B → ℚ) :
    P → ℚ → ℚ → List B → P × ℚ × ℚ
  | m, l, a, [] => (m, l, a)
  | m, l, a, b :: bs => valLoop lossOf accOf m (l + lossOf m b) (a + accOf m b) bs

/-- The validation phase of one epoch (lines 117-135): accumulate from totals
`0.0`, then divide by `len(val_loader)`; a zero-length validation loader makes
the division raise ZeroDivisionError. -/
def valPhase {P B : Type} (lossOf accOf : P → B → ℚ) (m : P) (bs : List B) :
    Except PyErr (P × ℚ × ℚ) :=
  let r := valLoop lossOf accOf m 0 0 bs
  if bs.length = 0 then Except.error PyErr.zeroDivision
  else Except.ok (r.1, r.2.1 / (bs.length : ℚ), r.2.2 / (bs.length : ℚ))

/-- The external tensor operations consumed by the batch-level loop: batch
gradient, gradient-buffer accumulation, optimizer update, per-batch validation
loss and accuracy. -/
structure TorchOps (P G B : Type) where
  gradOf : P → B → G
  gAdd : G → G → G
  stepF : P → G → P
  lossOf : P → B → ℚ
  accOf : P → B → ℚ

/-- Loop state of the batch-level run: parameters, the persistent gradient
buffer (never zeroed between batches or epochs), and the checkpoint/stop/lr
bookkeeping of lines 95-96. -/
structure RunStateB (P G : Type) where
  params : P
  grad : G
  minLossB : EFloat
  stopCountB : ℕ
  ckptB : Option (Ckpt P)
  lrB : ℚ

/-- One iteration of the epoch loop at batch level (lines 97-153): training
phase over all train batches, validation phase (which raises on an empty
validation loader), then the checkpoint / early-stop / scheduler logic of
lines 137-152. -/
def runEpochB {P G B : Type} (ops : TorchOps P G B) (trainBs valBs : List B)
    (e : ℕ) (s : RunStateB P G) : Except PyErr (RunStateB P G × Bool) :=
  let t := trainPhase ops.gradOf ops.gAdd ops.stepF (s.params, s.grad) trainBs
  match valPhase ops.lossOf ops.accOf t.1 valBs with
  | Except.error msg => Except.error msg
  | Except.ok r =>
    let vl := EFloat.finite r.2.1
    if EFloat.lt vl s.minLossB then
      Except.ok ({ params := t.1, grad := t.2, minLossB := vl, stopCountB := 0,
                   ckptB := some ⟨e, t.1, vl⟩, lrB := s.lrB * (7 / 10) }, false)
    else
      let sc := s.stopCountB + 1
      if 5 ≤ sc then
        Except.ok ({ s with
                      params := t.1, grad := t.2, stopCountB := sc }, true)
      else
        Except.ok ({ s with
                      params := t.1, grad := t.2, stopCountB := sc,
                      lrB := s.lrB * (7 / 10) }, false)

/-- The epoch loop at batch level; a raised exception aborts the whole run. -/
def runFromB {P G B : Type} (ops : TorchOps P G B) (trainBs valBs : List B) :
    ℕ → ℕ → RunStateB P G → Except PyErr (RunStateB P G)
  | _, 0, s => Except.ok s
  | e, n + 1, s =>
    match runEpochB ops trainBs valBs e s with
    | Except.error msg => Except.error msg
    | Except.ok p =>
      if p.2 then Except.ok p.1 else runFromB ops trainBs valBs (e + 1) n p.1

/-- The whole training loop at batch level, from the initial state of
lines 95-96. -/
def trainB {P G B : Type} (ops : TorchOps P G B) (trainBs valBs : List B)
    (epochs : ℕ) (lr0 : ℚ) (p0 : P) (g0 : G) : Except PyErr (RunStateB P G) :=
  runFromB ops trainBs valBs 0 epochs
    { params := p0, grad := g0, minLossB := EFloat.pinf, stopCountB := 0,
      ckptB := none, lrB := lr0 }

/-- Top-level phases of `train(args)` in source order: read the corpus with
`pd.read_csv` (line 49), tokenize (lines 52-62), build the dataset and loaders
(lines 64-81), the per-epoch work of the training loop (lines 97-153, shown
with the full epoch budget), and the embedding export (lines 155-161).
`configFailFast` is the vocabulary for a validation failure before heavy work;
the script contains no such check anywhere. -/
inductive Phase where
  | readCorpus
  | tokenize
  | buildDataset
  | epochStep
  | exportArtifacts
  | configFailFast
deriving DecidableEq

/-- The configuration fields of the argparse surface (lines 163-181) that the
spec says must be validated: epoch budget, window radius and validation
fraction.  argparse only checks the Python types, never the values. -/
structure Config where
  epochs : ℤ
  windowSize : ℤ
  valRatio : ℚ

/-- The validity predicate stated by the spec for the configuration. -/
def validConfig (c : Config) : Prop :=
  0 < c.valRatio ∧ c.valRatio < 1 ∧ 0 < c.windowSize ∧ 0 < c.epochs

/-- Phase order of `train(args)` (lines 40-161): heavy computation starts
immediately with the corpus read; no configuration value is ever checked, so
no `configFailFast` phase occurs for any configuration, and `range(args.epochs)`
on a non-positive budget simply yields no epochs before the export runs. -/
def trainScript (c : Config) : List Phase :=
  [Phase.readCorpus, Phase.tokenize, Phase.buildDataset] ++
    (List.range c.epochs.toNat).map (fun _ => Phase.epochStep) ++
    [Phase.exportArtifacts]

/-- Invariant of the checkpoint history: the stored losses strictly decrease
along the file overwrites, and the current `min_loss` is below every stored
loss or equal to the last stored one. -/
def ChkInv {M : Type} (s : RunState M) : Prop :=
  List.Pairwise (fun a b => EFloat.lt b a = true) s.savedLosses ∧
  ∀ x ∈ s.savedLosses, EFloat.lt s.minLoss x = true ∨ s.minLoss = x

theorem runEpoch_model {M : Type} (tE : ℕ → M → M) (vL : M → EFloat) (e : ℕ)
    (s : RunState M) : (runEpoch tE vL e s).1.model = tE e s.model := by
  by_cases h : EFloat.lt (vL (tE e s.model)) s.minLoss = true <;>
    by_cases h2 : 5 ≤ s.stopCount + 1 <;> simp [runEpoch, h, h2]

theorem runEpoch_trained {M : Type} (tE : ℕ → M → M) (vL : M → EFloat) (e : ℕ)
    (s : RunState M) :
    (runEpoch tE vL e s).1.trainedEpochs = s.trainedEpochs + 1 := by
  by_cases h : EFloat.lt (vL (tE e s.model)) s.minLoss = true <;>
    by_cases h2 : 5 ≤ s.stopCount + 1 <;> simp [runEpoch, h, h2]

theorem runFrom_trained_mono {M : Type} (tE : ℕ → M → M) (vL : M → EFloat) :
    ∀ (n e : ℕ) (s : RunState M),
      s.trainedEpochs ≤ (runFrom tE vL e n s).trainedEpochs
  | 0, _, _ => le_refl _
  | n + 1, e, s => by
    simp only [runFrom]
    by_cases hb : (runEpoch tE vL e s).2 = true
    · simp only [hb, if_pos]
      exact (runEpoch_trained tE vL e s).symm ▸ Nat.le_succ _
    · simp only [hb, if_neg, Bool.false_eq_true, not_false_iff]
      calc s.trainedEpochs ≤ (runEpoch tE vL e s).1.trainedEpochs := by
              rw [runEpoch_trained]; exact Nat.le_succ _
        _ ≤ _ := runFrom_trained_mono tE vL n (e + 1) (runEpoch tE vL e s).1

theorem runFrom_saved_prefix {M : Type} (tE : ℕ → M → M) (vL : M → EFloat) :
    ∀ (n e : ℕ) (s : RunState M),
      ∃ t, (runFrom tE vL e n s).savedLosses = s.savedLosses ++ t
  | 0, _, s => ⟨[], by simp [runFrom]⟩
  | n + 1, e, s => by
    simp only [runFrom]
    by_cases h : EFloat.lt (vL (tE e s.model)) s.minLoss = true
    · have step : (runEpoch tE vL e s).1.savedLosses =
          s.savedLosses ++ [vL (tE e s.model)] := by simp [runEpoch, h]
      by_cases hb : (runEpoch tE vL e s).2 = true
      · exact ⟨[vL (tE e s.model)], by simp [hb, step]⟩
      · obtain ⟨t, ht⟩ := runFrom_saved_prefix tE vL n (e + 1) (runEpoch tE vL e s).1
        exact ⟨[vL (tE e s.model)] ++ t, by
          simp [hb, ht, step, List.append_assoc]⟩
    · have step : (runEpoch tE vL e s).1.savedLosses = s.savedLosses := by
        by_cases h2 : 5 ≤ s.stopCount + 1 <;> simp [runEpoch, h, h2]
      by_cases hb : (runEpoch tE vL e s).2 = true
      · exact ⟨[], by simp [hb, step]⟩
      · obtain ⟨t, ht⟩ := runFrom_saved_prefix tE vL n (e + 1) (runEpoch tE vL e s).1
        exact ⟨t, by simp [hb, ht, step]⟩

theorem runEpoch_improve_eq {M : Type} (tE : ℕ → M → M) (vL : M → EFloat)
    (e : ℕ) (s : RunState M)
    (h : EFloat.lt (vL (tE e s.model)) s.minLoss = true) :
    runEpoch tE vL e s =
      ({ s with
          model := tE e s.model, minLoss := vL (tE e s.model), stopCount := 0,
          ckpt := some ⟨e, tE e s.model, vL (tE e s.model)⟩,
          savedLosses := s.savedLosses ++ [vL (tE e s.model)],
          lr := s.lr * (7 / 10), trainedEpochs := s.trainedEpochs + 1,
          schedSteps := s.schedSteps + 1 }, false) := by
  simp [runEpoch, h]

theorem runEpoch_break_eq {M : Type} (tE : ℕ → M → M) (vL : M → EFloat)
    (e : ℕ) (s : RunState M)
    (h : EFloat.lt (vL (tE e s.model)) s.minLoss = false)
    (h2 : 4 ≤ s.stopCount) :
    runEpoch tE vL e s =
      ({ s with
          model := tE e s.model, stopCount := s.stopCount + 1,
          trainedEpochs := s.trainedEpochs + 1, stoppedAt := some e }, true) := by
  have h5 : 5 ≤ s.stopCount + 1 := by omega
  simp [runEpoch, h, h5]

theorem runEpoch_cont_eq {M : Type} (tE : ℕ → M → M) (vL : M → EFloat)
    (e : ℕ) (s : RunState M)
    (h : EFloat.lt (vL (tE e s.model)) s.minLoss = false)
    (h2 : s.stopCount < 4) :
    runEpoch tE vL e s =
      ({ s with
          model := tE e s.model, stopCount := s.stopCount + 1,
          lr := s.lr * (7 / 10), trainedEpochs := s.trainedEpochs + 1,
          schedSteps := s.schedSteps + 1 }, false) := by
  have h5 : ¬ 5 ≤ s.stopCount + 1 := by omega
  simp [runEpoch, h, h5]

theorem runEpoch_inv {M : Type} (tE : ℕ → M → M) (vL : M → EFloat) (e : ℕ)
    (s : RunState M) (hs : ChkInv s) : ChkInv (runEpoch tE vL e s).1 := by
  obtain ⟨hp, hm⟩ := hs
  by_cases h : EFloat.lt (vL (tE e s.model)) s.minLoss = true
  · have hvx : ∀ x ∈ s.savedLosses, EFloat.lt (vL (tE e s.model)) x = true := by
      intro x hx
      rcases hm x hx with h2 | h2
      · exact EFloat.lt_trans h h2
      · rw [h2] at h; exact h
    rw [runEpoch_improve_eq tE vL e s h]
    constructor
    · rw [List.pairwise_append]
      refine ⟨hp, List.pairwise_singleton _ _, ?_⟩
      intro a ha b hb
      rw [List.mem_singleton] at hb
      subst hb
      exact hvx a ha
    · intro x hx
      rw [List.mem_append, List.mem_singleton] at hx
      rcases hx with hx | hx
      · exact Or.inl (hvx x hx)
      · exact Or.inr hx.symm
  · rw [Bool.not_eq_true] at h
    by_cases h2 : 4 ≤ s.stopCount
    · rw [runEpoch_break_eq tE vL e s h h2]
      exact ⟨hp, hm⟩
    · rw [runEpoch_cont_eq tE vL e s h (by omega)]
      exact ⟨hp, hm⟩

theorem runFrom_inv {M : Type} (tE : ℕ → M → M) (vL : M → EFloat) :
    ∀ (n e : ℕ) (s : RunState M), ChkInv s → ChkInv (runFrom tE vL e n s)
  | 0, _, _, hs => hs
  | n + 1, e, s, hs => by
    simp only [runFrom]
    by_cases hb : (runEpoch tE vL e s).2 = true
    · simp only [hb, if_pos]
      exact runEpoch_inv tE vL e s hs
    · simp only [hb, Bool.false_eq_true, if_neg, not_false_iff]
      exact runFrom_inv tE vL n (e + 1) (runEpoch tE vL e s).1
        (runEpoch_inv tE vL e s hs)

theorem runFrom_succ_of_break {M : Type} (tE : ℕ → M → M) (vL : M → EFloat)
    (e n : ℕ) (s : RunState M) (hb : (runEpoch tE vL e s).2 = true) :
    runFrom tE vL e (n + 1) s = (runEpoch tE vL e s).1 := by
  simp [runFrom, hb]

theorem runFrom_succ_of_cont {M : Type} (tE : ℕ → M → M) (vL : M → EFloat)
    (e n : ℕ) (s : RunState M) (hb : (runEpoch tE vL e s).2 = false) :
    runFrom tE vL e (n + 1) s = runFrom tE vL (e + 1) n (runEpoch tE vL e s).1 := by
  simp [runFrom, hb]

theorem runEpoch_cont_parts {M : Type} (tE : ℕ → M → M) (vL : M → EFloat)
    (e : ℕ) (s : RunState M) (hb : (runEpoch tE vL e s).2 = false) :
    (runEpoch tE vL e s).1.stoppedAt = s.stoppedAt ∧
    (runEpoch tE vL e s).1.schedSteps = s.schedSteps + 1 ∧
    (runEpoch tE vL e s).1.lr = s.lr * (7 / 10) ∧
    (runEpoch tE vL e s).1.stopCount ≤ 4 := by
  by_cases h : EFloat.lt (vL (tE e s.model)) s.minLoss = true
  · simp [runEpoch, h]
  · by_cases h2 : 5 ≤ s.stopCount + 1
    · simp [runEpoch, h, h2] at hb
    · refine ⟨?_, ?_, ?_, ?_⟩ <;> simp [runEpoch, h, h2]
      omega

theorem runEpoch_break_parts {M : Type} (tE : ℕ → M → M) (vL : M → EFloat)
    (e : ℕ) (s : RunState M) (hb : (runEpoch tE vL e s).2 = true) :
    (runEpoch tE vL e s).1.stoppedAt = some e ∧
    (runEpoch tE vL e s).1.schedSteps = s.schedSteps ∧
    (runEpoch tE vL e s).1.stopCount = s.stopCount + 1 ∧
    4 ≤ s.stopCount := by
  by_cases h : EFloat.lt (vL (tE e s.model)) s.minLoss = true
  · simp [runEpoch, h] at hb
  · by_cases h2 : 5 ≤ s.stopCount + 1
    · refine ⟨?_, ?_, ?_, by omega⟩ <;> simp [runEpoch, h, h2]
    · simp [runEpoch, h, h2] at hb

theorem runEpoch_noimp_parts {M : Type} (tE : ℕ → M → M) (vL : M → EFloat)
    (e : ℕ) (s : RunState M)
    (h : EFloat.lt (vL (tE e s.model)) s.minLoss = false) :
    (runEpoch tE vL e s).1.ckpt = s.ckpt ∧
    (runEpoch tE vL e s).1.savedLosses = s.savedLosses ∧
    (runEpoch tE vL e s).1.minLoss = s.minLoss ∧
    (runEpoch tE vL e s).1.stopCount = s.stopCount + 1 := by
  by_cases h2 : 5 ≤ s.stopCount + 1 <;> simp [runEpoch, h, h2]

theorem runFrom_model_eq {M : Type} (tE : ℕ → M → M) (vL : M → EFloat) :
    ∀ (n e : ℕ) (s : RunState M),
      (runFrom tE vL e n s).model =
        applyEpochs tE e
          ((runFrom tE vL e n s).trainedEpochs - s.trainedEpochs) s.model
  | 0, e, s => by simp [runFrom, applyEpochs]
  | n + 1, e, s => by
    by_cases hb : (runEpoch tE vL e s).2 = true
    · rw [runFrom_succ_of_break tE vL e n s hb, runEpoch_trained, runEpoch_model]
      simp [applyEpochs]
    · rw [Bool.not_eq_true] at hb
      rw [runFrom_succ_of_cont tE vL e n s hb]
      have ih := runFrom_model_eq tE vL n (e + 1) (runEpoch tE vL e s).1
      rw [ih, runEpoch_model, runEpoch_trained]
      have hmono := runFrom_trained_mono tE vL n (e + 1) (runEpoch tE vL e s).1
      rw [runEpoch_trained] at hmono
      obtain ⟨k, hk⟩ : ∃ k,
          (runFrom tE vL (e + 1) n (runEpoch tE vL e s).1).trainedEpochs -
            s.trainedEpochs = k + 1 :=
        ⟨(runFrom tE vL (e + 1) n (runEpoch tE vL e s).1).trainedEpochs -
          s.trainedEpochs - 1, by omega⟩
      have hk2 : (runFrom tE vL (e + 1) n (runEpoch tE vL e s).1).trainedEpochs -
          (s.trainedEpochs + 1) = k := by omega
      rw [hk, hk2]
      rfl

theorem runFrom_stopped {M : Type} (tE : ℕ → M → M) (vL : M → EFloat) :
    ∀ (n e e2 : ℕ) (s : RunState M),
      s.stoppedAt = none → s.stopCount ≤ 4 →
      (runFrom tE vL e n s).stoppedAt = some e2 →
      e ≤ e2 ∧ e2 < e + n ∧
      (runFrom tE vL e n s).trainedEpochs = s.trainedEpochs + (e2 - e) + 1 ∧
      (runFrom tE vL e n s).schedSteps = s.schedSteps + (e2 - e) ∧
      (runFrom tE vL e n s).stopCount = 5
  | 0, e, e2, s => by
    intro hnone _ hstop
    rw [runFrom, hnone] at hstop
    exact absurd hstop (by simp)
  | n + 1, e, e2, s => by
    intro hnone hle hstop
    by_cases hb : (runEpoch tE vL e s).2 = true
    · obtain ⟨p1, p2, p3, p4⟩ := runEpoch_break_parts tE vL e s hb
      rw [runFrom_succ_of_break tE vL e n s hb] at hstop ⊢
      rw [p1, Option.some.injEq] at hstop
      subst hstop
      rw [runEpoch_trained, p2, p3]
      refine ⟨le_refl _, by omega, by omega, by omega, by omega⟩
    · rw [Bool.not_eq_true] at hb
      obtain ⟨p1, p2, p3, p4⟩ := runEpoch_cont_parts tE vL e s hb
      rw [runFrom_succ_of_cont tE vL e n s hb] at hstop ⊢
      obtain ⟨g1, g2, g3, g4, g5⟩ :=
        runFrom_stopped tE vL n (e + 1) e2 (runEpoch tE vL e s).1
          (p1.trans hnone) (by omega) hstop
      rw [runEpoch_trained] at g3
      rw [p2] at g4
      refine ⟨by omega, by omega, by rw [g3]; omega, by rw [g4]; omega, g5⟩

theorem runFrom_not_stopped {M : Type} (tE : ℕ → M → M) (vL : M → EFloat) :
    ∀ (n e : ℕ) (s : RunState M),
      (runFrom tE vL e n s).stoppedAt = none →
      (runFrom tE vL e n s).lr = s.lr * (7 / 10) ^ n ∧
      (runFrom tE vL e n s).schedSteps = s.schedSteps + n ∧
      (runFrom tE vL e n s).trainedEpochs = s.trainedEpochs + n
  | 0, e, s => by intro _; simp [runFrom]
  | n + 1, e, s => by
    intro hns
    by_cases hb : (runEpoch tE vL e s).2 = true
    · obtain ⟨p1, _, _, _⟩ := runEpoch_break_parts tE vL e s hb
      rw [runFrom_succ_of_break tE vL e n s hb, p1] at hns
      exact absurd hns (by simp)
    · rw [Bool.not_eq_true] at hb
      obtain ⟨p1, p2, p3, _⟩ := runEpoch_cont_parts tE vL e s hb
      rw [runFrom_succ_of_cont tE vL e n s hb] at hns ⊢
      obtain ⟨g1, g2, g3⟩ :=
        runFrom_not_stopped tE vL n (e + 1) (runEpoch tE vL e s).1 hns
      rw [p2] at g2
      rw [runEpoch_trained] at g3
      refine ⟨?_, by omega, by omega⟩
      rw [g1, p3, pow_succ]
      ring

theorem runFrom_never_improves {M : Type} (tE : ℕ → M → M) (vL : M → EFloat)
    (H : ∀ (m : M) (x : EFloat), EFloat.lt (vL m) x = false) :
    ∀ (n e : ℕ) (s : RunState M), 5 ≤ s.stopCount + n → s.stopCount ≤ 4 →
      (runFrom tE vL e n s).stoppedAt = some (e + (4 - s.stopCount)) ∧
      (runFrom tE vL e n s).ckpt = s.ckpt ∧
      (runFrom tE vL e n s).savedLosses = s.savedLosses
  | 0, _, s => by
    intro h5 h4
    exact absurd h5 (by omega)
  | n + 1, e, s => by
    intro h5 h4
    obtain ⟨q1, q2, q3, q4⟩ := runEpoch_noimp_parts tE vL e s (H _ _)
    by_cases hc : 4 ≤ s.stopCount
    · have hb : (runEpoch tE vL e s).2 = true := by
        have h5c : 5 ≤ s.stopCount + 1 := by omega
        simp [runEpoch, H (tE e s.model) s.minLoss, h5c]
      obtain ⟨p1, _, _, _⟩ := runEpoch_break_parts tE vL e s hb
      rw [runFrom_succ_of_break tE vL e n s hb, p1, q1, q2]
      have heq : s.stopCount = 4 := by omega
      rw [heq]
      exact ⟨rfl, rfl, rfl⟩
    · have hb : (runEpoch tE vL e s).2 = false := by
        have h5c : ¬ 5 ≤ s.stopCount + 1 := by omega
        simp [runEpoch, H (tE e s.model) s.minLoss, h5c]
      rw [runFrom_succ_of_cont tE vL e n s hb]
      obtain ⟨g1, g2, g3⟩ :=
        runFrom_never_improves tE vL H n (e + 1) (runEpoch tE vL e s).1
          (by omega) (by omega)
      rw [q4] at g1
      refine ⟨?_, g2.trans q1, g3.trans q2⟩
      rw [g1, Option.some.injEq]
      omega

theorem valLoop_eq {P B : Type} (lossOf accOf : P → B → ℚ) (m : P) :
    ∀ (bs : List B) (l a : ℚ),
      valLoop lossOf accOf m l a bs =
        (m, l + (bs.map (lossOf m)).sum, a + (bs.map (accOf m)).sum)
  | [], l, a => by simp [valLoop]
  | b :: bs, l, a => by
    simp only [valLoop, List.map_cons, List.sum_cons]
    rw [valLoop_eq lossOf accOf m bs (l + lossOf m b) (a + accOf m b)]
    rw [add_assoc, add_assoc]

theorem trainPhase_grad {P G B : Type} (gradOf : P → B → G) (gAdd : G → G → G)
    (stepF : P → G → P) :
    ∀ (bs : List B) (st : P × G),
      (trainPhase gradOf gAdd stepF st bs).2 =
        (gradTrace gradOf gAdd stepF st bs).foldl gAdd st.2
  | [], _ => rfl
  | b :: bs, st => by
    simp only [trainPhase, List.foldl_cons, gradTrace]
    rw [show List.foldl (trainStep gradOf gAdd stepF)
          (trainStep gradOf gAdd stepF st b) bs =
        trainPhase gradOf gAdd stepF (trainStep gradOf gAdd stepF st b) bs from rfl]
    rw [trainPhase_grad gradOf gAdd stepF bs (trainStep gradOf gAdd stepF st b)]
    rfl

theorem gradTrace_length {P G B : Type} (gradOf : P → B → G) (gAdd : G → G → G)
    (stepF : P → G → P) :
    ∀ (bs : List B) (st : P × G),
      (gradTrace gradOf gAdd stepF st bs).length = bs.length
  | [], _ => rfl
  | b :: bs, st => by
    simp only [gradTrace, List.length_cons]
    rw [gradTrace_length gradOf gAdd stepF bs (trainStep gradOf gAdd stepF st b)]

/-- Claim C1 (amended): the exported embedding arrays are read from the
in-memory model at loop exit, i.e. the result of applying the training phases
of all executed epochs to the initial model, not from the model snapshot stored
in the best checkpoint. -/
theorem spec_C1 (M : Type) (tE : ℕ → M → M) (vL : M → EFloat) (epochs : ℕ)
    (lr0 : ℚ) (m0 : M) :
    exportedEmbedding tE vL epochs lr0 m0 =
      applyEpochs tE 0 (train tE vL epochs lr0 m0).trainedEpochs m0 := by
  have h := runFrom_model_eq tE vL epochs 0 (initState lr0 m0)
  simpa [exportedEmbedding, train, initState] using h

/-- Claim C1 counterexample: a two-epoch run whose validation loss worsens
after the first epoch.  The best checkpoint stores the model snapshot `1` from
epoch 0, but the exported embedding is the in-memory model `2` from loop exit,
so the exported arrays do not equal the best-checkpoint snapshot. -/
theorem spec_C1_cex :
    (train (fun _ (m : ℕ) => m + 1) (fun m => EFloat.finite (m : ℚ)) 2 1 0).ckpt =
      some ⟨0, 1, EFloat.finite 1⟩ ∧
    exportedEmbedding (fun _ (m : ℕ) => m + 1) (fun m => EFloat.finite (m : ℚ))
      2 1 0 = 2 ∧
    (2 : ℕ) ≠ 1 := by
  decide

/-- Claim C2: a checkpoint is persisted in an epoch exactly when the averaged
validation loss compares strictly below the best-so-far minimum (ties never
count, since the comparison is irreflexive); on a persist the stop counter
resets to 0, the minimum becomes the new loss, and the stored checkpoint
records the current epoch, model snapshot and loss; otherwise checkpoint file,
minimum and history are unchanged and the stop counter is incremented; hence
the sequence of losses stored in the checkpoint file over one run is strictly
decreasing. -/
theorem spec_C2 (M : Type) (tE : ℕ → M → M) (vL : M → EFloat) (epochs : ℕ)
    (lr0 : ℚ) (m0 : M) (e : ℕ) (s : RunState M) :
    List.Pairwise (fun a b => EFloat.lt b a = true)
      (train tE vL epochs lr0 m0).savedLosses ∧
    (∀ v : EFloat, EFloat.lt v v = false) ∧
    (runEpoch tE vL e s).1.ckpt =
      (if EFloat.lt (vL (tE e s.model)) s.minLoss then
        some ⟨e, tE e s.model, vL (tE e s.model)⟩ else s.ckpt) ∧
    (runEpoch tE vL e s).1.savedLosses =
      (if EFloat.lt (vL (tE e s.model)) s.minLoss then
        s.savedLosses ++ [vL (tE e s.model)] else s.savedLosses) ∧
    (runEpoch tE vL e s).1.minLoss =
      (if EFloat.lt (vL (tE e s.model)) s.minLoss then vL (tE e s.model)
        else s.minLoss) ∧
    (runEpoch tE vL e s).1.stopCount =
      (if EFloat.lt (vL (tE e s.model)) s.minLoss then 0
        else s.stopCount + 1) := by
  refine ⟨?_, EFloat.lt_irrefl, ?_, ?_, ?_, ?_⟩
  · exact (runFrom_inv tE vL epochs 0 (initState lr0 m0)
      ⟨List.Pairwise.nil, by intro x hx; simp [initState] at hx⟩).1
  all_goals
    by_cases h : EFloat.lt (vL (tE e s.model)) s.minLoss = true
  case pos => rw [runEpoch_improve_eq tE vL e s h]; simp [h]
  case neg =>
    rw [Bool.not_eq_true] at h
    obtain ⟨q1, q2, q3, q4⟩ := runEpoch_noimp_parts tE vL e s h
    simp [h, q1, q2, q3, q4]
  case pos => rw [runEpoch_improve_eq tE vL e s h]; simp [h]
  case neg =>
    rw [Bool.not_eq_true] at h
    obtain ⟨q1, q2, q3, q4⟩ := runEpoch_noimp_parts tE vL e s h
    simp [h, q1, q2, q3, q4]
  case pos => rw [runEpoch_improve_eq tE vL e s h]; simp [h]
  case neg =>
    rw [Bool.not_eq_true] at h
    obtain ⟨q1, q2, q3, q4⟩ := runEpoch_noimp_parts tE vL e s h
    simp [h, q1, q2, q3, q4]
  case pos => rw [runEpoch_improve_eq tE vL e s h]; simp [h]
  case neg =>
    rw [Bool.not_eq_true] at h
    obtain ⟨q1, q2, q3, q4⟩ := runEpoch_noimp_parts tE vL e s h
    simp [h, q1, q2, q3, q4]

/-- Claim C3: when a run early-stops at epoch `e` (the stop counter having
reached 5 there), the loop exits immediately: epoch `e` is the last epoch whose
training phase ran, the scheduler stepped only in the `e` earlier epochs (not
in epoch `e` nor in any later one), the stop counter is exactly 5, and the
early stop happened strictly inside the epoch budget. -/
theorem spec_C3 (M : Type) (tE : ℕ → M → M) (vL : M → EFloat) (epochs : ℕ)
    (lr0 : ℚ) (m0 : M) (e : ℕ)
    (h : (train tE vL epochs lr0 m0).stoppedAt = some e) :
    (train tE vL epochs lr0 m0).trainedEpochs = e + 1 ∧
    (train tE vL epochs lr0 m0).schedSteps = e ∧
    (train tE vL epochs lr0 m0).stopCount = 5 ∧
    e < epochs := by
  obtain ⟨g1, g2, g3, g4, g5⟩ :=
    runFrom_stopped tE vL epochs 0 e (initState lr0 m0) rfl
      (by simp [initState]) h
  simp only [train]
  refine ⟨?_, ?_, g5, by omega⟩
  · rw [g3]; simp [initState]
  · rw [g4]; simp [initState]

/-- Claim C3 witness: with a constant validation loss the first epoch improves
on infinity and epochs 1 to 5 then fail to improve, so the run early-stops at
epoch 5 with 6 training phases and 5 scheduler steps. -/
theorem spec_C3_wit :
    (train (fun _ (m : ℕ) => m) (fun _ => EFloat.finite 1) 20 1 0).stoppedAt =
      some 5 ∧
    (train (fun _ (m : ℕ) => m) (fun _ => EFloat.finite 1) 20 1 0).trainedEpochs
      = 6 ∧
    (train (fun _ (m : ℕ) => m) (fun _ => EFloat.finite 1) 20 1 0).schedSteps
      = 5 := by
  have h : (train (fun _ (m : ℕ) => m) (fun _ => EFloat.finite 1)
      20 1 0).stoppedAt = some 5 := by decide
  obtain ⟨g1, g2, _, _⟩ :=
    spec_C3 ℕ (fun _ m => m) (fun _ => EFloat.finite 1) 20 1 0 5 h
  exact ⟨h, g1, g2⟩

/-- Claim C4: a run that completes its whole budget of `epochs` epochs without
early stopping applies exactly one learning-rate decay per completed epoch,
leaving the optimizer learning rate at `initial_lr * 0.7 ^ epochs`. -/
theorem spec_C4 (M : Type) (tE : ℕ → M → M) (vL : M → EFloat) (epochs : ℕ)
    (lr0 : ℚ) (m0 : M)
    (h : (train tE vL epochs lr0 m0).stoppedAt = none) :
    (train tE vL epochs lr0 m0).lr = lr0 * (7 / 10) ^ epochs ∧
    (train tE vL epochs lr0 m0).schedSteps = epochs ∧
    (train tE vL epochs lr0 m0).trainedEpochs = epochs := by
  obtain ⟨g1, g2, g3⟩ := runFrom_not_stopped tE vL epochs 0 (initState lr0 m0) h
  simp only [train]
  refine ⟨?_, ?_, ?_⟩
  · rw [g1]; rfl
  · rw [g2]; simp [initState]
  · rw [g3]; simp [initState]

/-- Claim C4 witness: a three-epoch run whose validation losses strictly
decrease never stops early and ends with learning rate `1 * (7 / 10) ^ 3`. -/
theorem spec_C4_wit :
    (train (fun _ (m : ℕ) => m + 1) (fun m => EFloat.finite (-(m : ℚ)))
      3 1 0).stoppedAt = none ∧
    (train (fun _ (m : ℕ) => m + 1) (fun m => EFloat.finite (-(m : ℚ)))
      3 1 0).lr = 1 * (7 / 10) ^ 3 := by
  have h : (train (fun _ (m : ℕ) => m + 1)
      (fun m => EFloat.finite (-(m : ℚ))) 3 1 0).stoppedAt = none := by
    decide
  exact ⟨h, (spec_C4 ℕ (fun _ m => m + 1)
    (fun m => EFloat.finite (-(m : ℚ))) 3 1 0 h).1⟩

/-- Claim C5: a NaN or plus-infinite validation loss never satisfies the
strict-improvement comparison against any best-so-far value, so such an epoch
writes no checkpoint, leaves the history and minimum untouched and increments
the stop counter; a run whose validation losses are all non-finite, given a
budget of at least 5 epochs, early-stops at epoch 4 (after the patience of 5
failed epochs) with no checkpoint ever written. -/
theorem spec_C5 (M : Type) (tE : ℕ → M → M) (vL : M → EFloat) :
    (∀ x : EFloat, EFloat.lt EFloat.nan x = false ∧
      EFloat.lt EFloat.pinf x = false) ∧
    (∀ (e : ℕ) (s : RunState M),
      (vL (tE e s.model) = EFloat.nan ∨ vL (tE e s.model) = EFloat.pinf) →
      (runEpoch tE vL e s).1.ckpt = s.ckpt ∧
      (runEpoch tE vL e s).1.savedLosses = s.savedLosses ∧
      (runEpoch tE vL e s).1.minLoss = s.minLoss ∧
      (runEpoch tE vL e s).1.stopCount = s.stopCount + 1) ∧
    (∀ (epochs : ℕ) (lr0 : ℚ) (m0 : M),
      (∀ m, vL m = EFloat.nan ∨ vL m = EFloat.pinf) → 5 ≤ epochs →
      (train tE vL epochs lr0 m0).stoppedAt = some 4 ∧
      (train tE vL epochs lr0 m0).ckpt = none ∧
      (train tE vL epochs lr0 m0).savedLosses = []) := by
  refine ⟨fun x => ⟨EFloat.lt_nan_left x, EFloat.lt_pinf_left x⟩, ?_, ?_⟩
  · intro e s hv
    have h : EFloat.lt (vL (tE e s.model)) s.minLoss = false := by
      rcases hv with hv | hv <;> rw [hv]
      · exact EFloat.lt_nan_left _
      · exact EFloat.lt_pinf_left _
    exact runEpoch_noimp_parts tE vL e s h
  · intro epochs lr0 m0 hall h5
    have H : ∀ (m : M) (x : EFloat), EFloat.lt (vL m) x = false := by
      intro m x
      rcases hall m with hv | hv <;> rw [hv]
      · exact EFloat.lt_nan_left x
      · exact EFloat.lt_pinf_left x
    obtain ⟨g1, g2, g3⟩ :=
      runFrom_never_improves tE vL H epochs 0 (initState lr0 m0)
        (by simp [initState]; omega) (by simp [initState])
    simp only [train]
    refine ⟨?_, ?_, ?_⟩
    · rw [g1]; rfl
    · rw [g2]; rfl
    · rw [g3]; rfl

/-- Claim C6 (amended): the first epoch of a run writes a checkpoint exactly
when its validation loss compares strictly below the initial minimum of plus
infinity, i.e. when the loss is neither NaN nor plus infinity; in particular
any finite first-epoch loss is recorded as the first entry of the checkpoint
history. -/
theorem spec_C6 (M : Type) (tE : ℕ → M → M) (vL : M → EFloat) (lr0 : ℚ)
    (m0 : M) :
    ((runEpoch tE vL 0 (initState lr0 m0)).1.ckpt ≠ none ↔
      (vL (tE 0 m0) ≠ EFloat.nan ∧ vL (tE 0 m0) ≠ EFloat.pinf)) ∧
    (∀ (epochs : ℕ) (q : ℚ), 1 ≤ epochs → vL (tE 0 m0) = EFloat.finite q →
      (train tE vL epochs lr0 m0).savedLosses.head? =
        some (EFloat.finite q)) := by
  constructor
  · have hlt : EFloat.lt (vL (tE 0 m0)) EFloat.pinf = true ↔
        (vL (tE 0 m0) ≠ EFloat.nan ∧ vL (tE 0 m0) ≠ EFloat.pinf) := by
      cases hv : vL (tE 0 m0) <;> simp [EFloat.lt]
    rw [← hlt]
    by_cases h : EFloat.lt (vL (tE 0 m0)) EFloat.pinf = true
    · constructor
      · intro _; exact h
      · intro _
        rw [runEpoch_improve_eq tE vL 0 (initState lr0 m0) h]
        simp
    · constructor
      · intro hne
        rw [Bool.not_eq_true] at h
        obtain ⟨q1, _, _, _⟩ := runEpoch_noimp_parts tE vL 0 (initState lr0 m0) h
        exact absurd (q1.trans rfl) hne
      · intro hcon; exact absurd hcon h
  · intro epochs q h1 hq
    obtain ⟨n, rfl⟩ : ∃ n, epochs = n + 1 := ⟨epochs - 1, by omega⟩
    have h : EFloat.lt (vL (tE 0 (initState lr0 m0).model))
        (initState lr0 m0).minLoss = true := by
      show EFloat.lt (vL (tE 0 m0)) EFloat.pinf = true
      rw [hq]
      rfl
    have hstep := runEpoch_improve_eq tE vL 0 (initState lr0 m0) h
    have hb : (runEpoch tE vL 0 (initState lr0 m0)).2 = false := by
      rw [hstep]
    show (runFrom tE vL 0 (n + 1) (initState lr0 m0)).savedLosses.head? =
      some (EFloat.finite q)
    rw [runFrom_succ_of_cont tE vL 0 n (initState lr0 m0) hb]
    obtain ⟨t, ht⟩ :=
      runFrom_saved_prefix tE vL n (0 + 1) (runEpoch tE vL 0 (initState lr0 m0)).1
    rw [ht, hstep]
    simp [initState, hq]

/-- Claim C6 counterexample: a run whose first-epoch validation loss is NaN
writes no checkpoint in its first (and only) epoch, refuting that the first
epoch always counts as an improvement. -/
theorem spec_C6_cex :
    (train (fun _ (m : ℕ) => m) (fun _ => EFloat.nan) 1 1 0).ckpt = none ∧
    (train (fun _ (m : ℕ) => m) (fun _ => EFloat.nan) 1 1 0).savedLosses
      = [] := by
  decide

/-- Claim C6 witness: a one-epoch run with first-epoch loss `3` stores `3` as
the first checkpoint history entry. -/
theorem spec_C6_wit :
    (train (fun _ (m : ℕ) => m) (fun _ => EFloat.finite 3)
      1 1 0).savedLosses.head? = some (EFloat.finite 3) := by
  exact (spec_C6 ℕ (fun _ m => m) (fun _ => EFloat.finite 3) 1 0).2 1 3
    (by norm_num) rfl

/-- Claim C7: the validation phase never mutates the model it evaluates and,
on a nonempty validation loader, produces exactly the accumulated per-batch
loss and accuracy divided by the number of validation batches. -/
theorem spec_C7 (P B : Type) (lossOf accOf : P → B → ℚ) (m : P) (bs : List B)
    (h : bs ≠ []) :
    valPhase lossOf accOf m bs =
      Except.ok (m, (bs.map (lossOf m)).sum / (bs.length : ℚ),
        (bs.map (accOf m)).sum / (bs.length : ℚ)) := by
  have hlen : bs.length ≠ 0 := by simpa using h
  simp [valPhase, valLoop_eq lossOf accOf m bs 0 0, hlen]

/-- Claim C7 witness: validating model `2` on the two batches `[1, 3]` with
loss `m + b` and accuracy `1` returns the unchanged model with averaged loss
`(3 + 5) / 2 = 4` and accuracy `1`. -/
theorem spec_C7_wit :
    valPhase (fun (m b : ℚ) => m + b) (fun _ _ => 1) 2 [1, 3] =
      Except.ok (2, 4, 1) := by
  have h := spec_C7 ℚ ℚ (fun m b => m + b) (fun _ _ => 1) 2 [1, 3] (by simp)
  rw [h]
  norm_num

/-- Claim C8 (refuted, code bug): the script validates no configuration value:
no run ever contains a fail-fast phase, and on the invalid configuration with
epoch budget 0 (window 11, validation fraction 1/10) the script still starts
with the heavy corpus read, performs tokenization and dataset construction,
runs no epoch, and exports the untrained embedding without any failure. -/
theorem spec_C8 :
    (∀ c : Config, (trainScript c).count Phase.configFailFast = 0) ∧
    ¬ validConfig ⟨0, 11, 1 / 10⟩ ∧
    (trainScript ⟨0, 11, 1 / 10⟩).head? = some Phase.readCorpus ∧
    trainScript ⟨0, 11, 1 / 10⟩ =
      [Phase.readCorpus, Phase.tokenize, Phase.buildDataset,
        Phase.exportArtifacts] := by
  refine ⟨?_, fun hv => absurd hv.2.2.2 (lt_irrefl 0), by decide, by decide⟩
  intro c
  rw [List.count_eq_zero]
  simp [trainScript]

/-- Claim C9: the optimizer gradient buffer is never zeroed: after any
training phase the buffer equals the incoming buffer folded with every
per-batch gradient produced since the phase began (one per batch), and phases
chain, so across epochs each optimizer step consumes the gradients accumulated
from every batch processed since the start of the run. -/
theorem spec_C9 (P G B : Type) (gradOf : P → B → G) (gAdd : G → G → G)
    (stepF : P → G → P) (st : P × G) (bs bs2 : List B) :
    (trainPhase gradOf gAdd stepF st bs).2 =
      (gradTrace gradOf gAdd stepF st bs).foldl gAdd st.2 ∧
    (gradTrace gradOf gAdd stepF st bs).length = bs.length ∧
    trainPhase gradOf gAdd stepF st (bs ++ bs2) =
      trainPhase gradOf gAdd stepF (trainPhase gradOf gAdd stepF st bs) bs2 := by
  refine ⟨trainPhase_grad gradOf gAdd stepF bs st,
    gradTrace_length gradOf gAdd stepF bs st, ?_⟩
  simp [trainPhase, List.foldl_append]

/-- Claim C10: a validation loader that yields zero batches makes the epoch
average divide the accumulated 0.0 by a batch count of 0, so the whole run
aborts with ZeroDivisionError in its first epoch instead of completing or
early-stopping. -/
theorem spec_C10 (P G B : Type) (ops : TorchOps P G B) (trainBs : List B)
    (epochs : ℕ) (lr0 : ℚ) (p0 : P) (g0 : G) (h : 1 ≤ epochs) :
    trainB ops trainBs [] epochs lr0 p0 g0 =
      Except.error PyErr.zeroDivision := by
  obtain ⟨n, rfl⟩ : ∃ n, epochs = n + 1 := ⟨epochs - 1, by omega⟩
  simp [trainB, runFromB, runEpochB, valPhase]

/-- Claim C10 witness: a concrete three-epoch run over rational tensors with
an empty validation loader aborts with ZeroDivisionError. -/
theorem spec_C10_wit :
    trainB (TorchOps.mk (fun _ _ => (0 : ℚ)) (fun a b => a + b) (fun p _ => p)
        (fun _ _ => 0) (fun _ _ => 0)) ([] : List ℚ) ([] : List ℚ) 3 1 (0 : ℚ)
        (0 : ℚ) =
      Except.error PyErr.zeroDivision := by
  exact spec_C10 ℚ ℚ ℚ
    (TorchOps.mk (fun _ _ => (0 : ℚ)) (fun a b => a + b) (fun p _ => p)
      (fun _ _ => 0) (fun _ _ => 0)) [] 3 1 0 0 (by norm_num)

end WordEmbedding
